import Mathlib

/-!
# Verification of the vercel-draw-lots state codec and draw engine

Shallow embedding of `pages/index.js`: the URL state codec
(`encodeState` / `decodeState`, with the compact `m<maskBase36>[.t<timeBase36>]`
grammar and the legacy base64url JSON grammar) and the draw transition
(`drawOne`), together with the helpers they rely on (`base64UrlDecode`,
the strict UTF-8 reconstruction performed by `decodeURIComponent`, and a
model of `JSON.parse`).

Modelling conventions:
* JavaScript numbers are modelled as `Nat`/`Int`; the code's bitwise
  operators use JS `ToInt32` semantics, made explicit where the operand can
  exceed the 32-bit range.
* JavaScript exceptions that the source catches are modelled with `Option`
  (`none` = the `catch` branch was taken); operations the source leaves
  unguarded (e.g. `.reduce` on a non-array) are modelled as `none` results
  of the enclosing operation.
* `Date.now()` and `Math.floor(Math.random() * n)` are injected as explicit
  parameters (`now`, `rand`); the random index contract `rand < n` is a
  hypothesis where a theorem needs it.
-/

namespace DrawLots

set_option maxRecDepth 40000

/-- The hardcoded nine-theme pool (`DEFAULT_THEMES`, `pages/index.js:79-89`). -/
def DEFAULT_THEMES : List String :=
  ["Basketball", "Baseball", "Swimming", "Golf", "Gym",
   "Badminton", "Cycling", "Soccer", "Fencing"]

/-! ## JSON values

Dynamic JavaScript values produced by `JSON.parse` (and by the compact
branch of `decodeState`, which builds a plain object of the same shape). -/

/-- A JSON value. Numbers are modelled as integers: the repository's
payloads only ever carry integral numbers (masks, epoch milliseconds). -/
inductive JVal where
  | jnull : JVal
  | jbool (b : Bool) : JVal
  | jnum (n : Int) : JVal
  | jstr (s : String) : JVal
  | jarr (elems : List JVal) : JVal
  | jobj (fields : List (String × JVal)) : JVal

/-- Property access `v.k` on a JS value: `none` models `undefined`
(non-object receiver or missing key). Later duplicate keys win, matching
the object produced by `JSON.parse`. -/
def JVal.getField : JVal → String → Option JVal
  | .jobj fields, k => (fields.reverse.find? (fun p => p.1 == k)).map (fun p => p.2)
  | _, _ => none

/-- JavaScript truthiness of a JSON value (`NaN` cannot occur here since
numbers are integral). -/
def jTruthy : JVal → Bool
  | .jnull => false
  | .jbool b => b
  | .jnum n => n != 0
  | .jstr s => s != ""
  | .jarr _ => true
  | .jobj _ => true

/-! ## Base64 (the `atob` step of `base64UrlDecode`) -/

/-- Index of a character in the standard base64 alphabet, `none` if the
character is not in the alphabet. -/
def b64Index (c : Char) : Option Nat :=
  if 'A' ≤ c ∧ c ≤ 'Z' then some (c.toNat - 65)
  else if 'a' ≤ c ∧ c ≤ 'z' then some (c.toNat - 71)
  else if '0' ≤ c ∧ c ≤ '9' then some (c.toNat + 4)
  else if c = '+' then some 62
  else if c = '/' then some 63
  else none

/-- ASCII whitespace removed by forgiving-base64 (`atob`). -/
def isB64Ws (c : Char) : Bool :=
  c = ' ' || c = '\t' || c = '\n' || c = '\x0c' || c = '\r'

/-- Strip at most two trailing `'='` characters (forgiving-base64 step 3;
only applied when the length is a multiple of four). -/
def stripPad (cs : List Char) : List Char :=
  match cs.reverse with
  | '=' :: '=' :: rest => rest.reverse
  | '=' :: rest => rest.reverse
  | _ => cs

/-- Convert a list of 6-bit values to bytes, discarding leftover bits of a
trailing group of two or three characters (forgiving-base64 output step). -/
def b64Bytes : List Nat → List Nat
  | a :: b :: c :: d :: rest =>
    (a * 4 + b / 16) :: ((b % 16) * 16 + c / 4) :: ((c % 4) * 64 + d) :: b64Bytes rest
  | [a, b] => [a * 4 + b / 16]
  | [a, b, c] => [a * 4 + b / 16, (b % 16) * 16 + c / 4]
  | _ => []

/-- Alphabet lookup over a whole string, failing on the first invalid
character. -/
def b64Vals : List Char → Option (List Nat)
  | [] => some []
  | c :: cs =>
    match b64Index c, b64Vals cs with
    | some v, some vs => some (v :: vs)
    | _, _ => none

/-- The character list `atob` actually converts: whitespace removed, then
trailing padding stripped when the length is a multiple of four. -/
def atobBody (cs : List Char) : List Char :=
  if (cs.filter (fun c => !isB64Ws c)).length % 4 = 0 then
    stripPad (cs.filter (fun c => !isB64Ws c))
  else cs.filter (fun c => !isB64Ws c)

/-- `atob`: WHATWG forgiving-base64 decode to a list of bytes. `none`
models the `InvalidCharacterError` that `base64UrlDecode` catches. -/
def atobChars (cs : List Char) : Option (List Nat) :=
  if (atobBody cs).length % 4 = 1 then none
  else
    match b64Vals (atobBody cs) with
    | some vals => some (b64Bytes vals)
    | none => none

/-! ## Strict UTF-8 reconstruction

`base64UrlDecode` re-encodes every byte as `%XX` and calls
`decodeURIComponent`, which is exactly a strict UTF-8 decode of the byte
sequence: overlong forms, surrogate code points and out-of-range sequences
throw `URIError` (modelled as `none`). -/

/-- Is the byte a UTF-8 continuation byte (`0b10xxxxxx`)? -/
def isCont (b : Nat) : Bool := 128 ≤ b && b ≤ 191

/-- Strict UTF-8 decode, fuel-bounded (each step consumes at least one
byte, so `fuel = length` never runs out on the byte list itself). -/
def utf8DecodeAux : Nat → List Nat → Option (List Char)
  | _, [] => some []
  | 0, _ :: _ => none
  | fuel + 1, b :: rest =>
    if b < 128 then
      (utf8DecodeAux fuel rest).map (fun cs => Char.ofNat b :: cs)
    else if 194 ≤ b ∧ b ≤ 223 then
      match rest with
      | c1 :: rest2 =>
        if isCont c1 then
          (utf8DecodeAux fuel rest2).map (fun cs =>
            Char.ofNat ((b - 192) * 64 + (c1 - 128)) :: cs)
        else none
      | _ => none
    else if 224 ≤ b ∧ b ≤ 239 then
      match rest with
      | c1 :: c2 :: rest2 =>
        if isCont c1 && isCont c2
            && !(b = 224 && c1 < 160)      -- overlong
            && !(b = 237 && 160 ≤ c1) then -- surrogates
          (utf8DecodeAux fuel rest2).map (fun cs =>
            Char.ofNat ((b - 224) * 4096 + (c1 - 128) * 64 + (c2 - 128)) :: cs)
        else none
      | _ => none
    else if 240 ≤ b ∧ b ≤ 244 then
      match rest with
      | c1 :: c2 :: c3 :: rest2 =>
        if isCont c1 && isCont c2 && isCont c3
            && !(b = 240 && c1 < 144)      -- overlong
            && !(b = 244 && 144 ≤ c1) then -- above U+10FFFF
          (utf8DecodeAux fuel rest2).map (fun cs =>
            Char.ofNat ((b - 240) * 262144 + (c1 - 128) * 4096 + (c2 - 128) * 64 + (c3 - 128)) :: cs)
        else none
      | _ => none
    else none

/-- Strict UTF-8 decode of a byte list into characters. -/
def utf8Decode (bytes : List Nat) : Option (List Char) :=
  utf8DecodeAux bytes.length bytes

/-- The URL-safe alphabet reversal of `base64UrlDecode`: every `'-'`
becomes `'+'` and every `'_'` becomes `'/'`. -/
def b64Mapped (s : String) : List Char :=
  s.data.map (fun c => if c = '-' then '+' else if c = '_' then '/' else c)

/-- The padding loop of `base64UrlDecode` (`while (s.length % 4) s += '='`). -/
def b64Padded (s : String) : List Char :=
  b64Mapped s ++ List.replicate ((4 - (b64Mapped s).length % 4) % 4) '='

/-- The byte-producing stage of `base64UrlDecode` (`pages/index.js:17-23`):
URL-safe alphabet reversal, `'='` padding to a multiple of four, `atob`. -/
def b64BytesOf (s : String) : Option (List Nat) :=
  if s = "" then none else atobChars (b64Padded s)

/-- `base64UrlDecode` (`pages/index.js:17-31`): `none` models both the
`null` return for empty input and the caught `atob`/`decodeURIComponent`
exceptions. -/
def base64UrlDecode (s : String) : Option String :=
  match b64BytesOf s with
  | some bytes => (utf8Decode bytes).map String.mk
  | none => none

/-! ## JSON parsing (`JSON.parse`)

A recursive-descent model of `JSON.parse` over the grammar the repository's
payloads use. Scope: objects, arrays, strings with single-character escapes,
optionally-signed integer numbers, `true`/`false`/`null`, and JSON
whitespace. Unmodelled corners that no payload of this system reaches are
rejected (`none`): `\uXXXX` escapes and fractional/exponent number forms. -/

/-- JSON whitespace. -/
def isJsonWs (c : Char) : Bool :=
  c = ' ' || c = '\t' || c = '\n' || c = '\r'

/-- Skip JSON whitespace. -/
def skipWs (cs : List Char) : List Char := cs.dropWhile isJsonWs

/-- Single-character string escapes (`\uXXXX` is outside the model). -/
def escChar : Char → Option Char
  | '"' => some '"'
  | '\\' => some '\\'
  | '/' => some '/'
  | 'b' => some '\x08'
  | 'f' => some '\x0c'
  | 'n' => some '\n'
  | 'r' => some '\r'
  | 't' => some '\t'
  | _ => none

/-- Parse the body of a string literal (after the opening quote), returning
the string and the input after the closing quote. Control characters below
`U+0020` are rejected, as in `JSON.parse`. -/
def strLitAux : List Char → List Char → Option (String × List Char)
  | [], _ => none
  | '"' :: rest, acc => some (String.mk acc.reverse, rest)
  | '\\' :: e :: rest, acc =>
    match escChar e with
    | some c => strLitAux rest (c :: acc)
    | none => none
  | c :: rest, acc =>
    if c.toNat < 32 then none else strLitAux rest (c :: acc)

/-- Decimal digit test. -/
def isDigit10 (c : Char) : Bool := '0' ≤ c && c ≤ '9'

/-- Parse an unsigned JSON integer: nonempty digits, no redundant leading
zero, and not followed by a fraction or exponent. -/
def parseNatNum (cs : List Char) : Option (Nat × List Char) :=
  let ds := cs.takeWhile isDigit10
  let rest := cs.dropWhile isDigit10
  if ds.isEmpty then none
  else if 1 < ds.length ∧ ds.headI = '0' then none
  else
    match rest with
    | '.' :: _ => none
    | 'e' :: _ => none
    | 'E' :: _ => none
    | _ => some (ds.foldl (fun a c => a * 10 + (c.toNat - 48)) 0, rest)

/-- Parse a JSON number (optionally signed integer). -/
def parseNum (cs : List Char) : Option (Int × List Char) :=
  match cs with
  | '-' :: rest => (parseNatNum rest).map (fun p => (-(p.1 : Int), p.2))
  | _ => (parseNatNum cs).map (fun p => ((p.1 : Int), p.2))

mutual

/-- Parse one JSON value; `fuel` bounds nesting depth. -/
def parseJVal : Nat → List Char → Option (JVal × List Char)
  | 0, _ => none
  | fuel + 1, cs =>
    match skipWs cs with
    | [] => none
    | c :: rest =>
      if c = '{' then
        match skipWs rest with
        | '}' :: rest2 => some (.jobj [], rest2)
        | rest2 => parseFields fuel rest2 []
      else if c = '[' then
        match skipWs rest with
        | ']' :: rest2 => some (.jarr [], rest2)
        | rest2 => parseElems fuel rest2 []
      else if c = '"' then
        (strLitAux rest []).map (fun p => (.jstr p.1, p.2))
      else
        match c :: rest with
        | 't' :: 'r' :: 'u' :: 'e' :: rest2 => some (.jbool true, rest2)
        | 'f' :: 'a' :: 'l' :: 's' :: 'e' :: rest2 => some (.jbool false, rest2)
        | 'n' :: 'u' :: 'l' :: 'l' :: rest2 => some (.jnull, rest2)
        | cs2 => (parseNum cs2).map (fun p => (.jnum p.1, p.2))

/-- Parse the members of an object, positioned at a key (after `{` or `,`). -/
def parseFields : Nat → List Char → List (String × JVal) →
    Option (JVal × List Char)
  | 0, _, _ => none
  | fuel + 1, cs, acc =>
    match skipWs cs with
    | '"' :: rest =>
      match strLitAux rest [] with
      | some (key, rest2) =>
        match skipWs rest2 with
        | ':' :: rest3 =>
          match parseJVal fuel rest3 with
          | some (v, rest4) =>
            match skipWs rest4 with
            | ',' :: rest5 => parseFields fuel rest5 (acc ++ [(key, v)])
            | '}' :: rest5 => some (.jobj (acc ++ [(key, v)]), rest5)
            | _ => none
          | none => none
        | _ => none
      | none => none
    | _ => none

/-- Parse the elements of an array, positioned at a value (after `[` or `,`). -/
def parseElems : Nat → List Char → List JVal → Option (JVal × List Char)
  | 0, _, _ => none
  | fuel + 1, cs, acc =>
    match parseJVal fuel cs with
    | some (v, rest) =>
      match skipWs rest with
      | ',' :: rest2 => parseElems fuel rest2 (acc ++ [v])
      | ']' :: rest2 => some (.jarr (acc ++ [v]), rest2)
      | _ => none
    | none => none

end

/-- `JSON.parse`: parse a complete document (only whitespace may follow the
top-level value). `none` models the thrown `SyntaxError`. -/
def jsonParse (s : String) : Option JVal :=
  match parseJVal (s.length + 1) s.data with
  | some (v, rest) => if (skipWs rest).isEmpty then some v else none
  | none => none

/-! ## Base-36 rendering and parsing

`Number.prototype.toString(36)` for nonnegative integers, and
`parseInt(str, 36)`, both case-insensitive on parse, lowercase on print. -/

/-- The base-36 digit character for a value below 36 (lowercase). -/
def digitChar36 (d : Nat) : Char :=
  Char.ofNat (if d < 10 then 48 + d else 87 + d)

/-- Digit expansion of a number, most significant first (`[]` for zero),
fuel-bounded: `(n + 1) / 36 ≤ n`, so `fuel = n` suffices for input `n`. -/
def ts36Aux : Nat → Nat → List Char
  | _, 0 => []
  | 0, _ + 1 => []
  | fuel + 1, n + 1 => ts36Aux fuel ((n + 1) / 36) ++ [digitChar36 ((n + 1) % 36)]

/-- `n.toString(36)` as a character list. -/
def ts36 (n : Nat) : List Char := if n = 0 then ['0'] else ts36Aux n n

/-- `n.toString(36)`. -/
def toString36 (n : Nat) : String := String.mk (ts36 n)

/-- Is the character a base-36 digit (`[0-9a-z]`, case-insensitive as in the
`/i` regular expression and `parseInt`)? -/
def isDigit36 (c : Char) : Bool :=
  ('0' ≤ c && c ≤ '9') || ('a' ≤ c && c ≤ 'z') || ('A' ≤ c && c ≤ 'Z')

/-- Numeric value of a base-36 digit. -/
def digVal36 (c : Char) : Nat :=
  if '0' ≤ c && c ≤ '9' then c.toNat - 48
  else if 'a' ≤ c && c ≤ 'z' then c.toNat - 87
  else if 'A' ≤ c && c ≤ 'Z' then c.toNat - 55
  else 0

/-- Value of a base-36 digit string, most significant digit first. -/
def val36 (ds : List Char) : Nat :=
  ds.foldl (fun a c => a * 36 + digVal36 c) 0

/-- `parseInt(str, 36)`: value of the longest valid digit prefix, `NaN`
(modelled `none`) if there is none. The sign/whitespace handling of
`parseInt` is omitted: the source only applies it to regex groups that are
guaranteed to be pure digit strings. -/
def jsParseInt36 (ds : List Char) : Option Nat :=
  if (ds.takeWhile isDigit36).isEmpty then none
  else some (val36 (ds.takeWhile isDigit36))

/-! ## JS 32-bit integer coercions

JavaScript bitwise operators (`>>`, `&`, `|`, `~`, `<<`) convert their
operands with `ToInt32` (wrap modulo `2^32`, then reinterpret as signed). -/

/-- `ToUint32`: the 32-bit pattern of an integer. -/
def toUInt32 (n : Int) : Nat := (n.emod 4294967296).toNat

/-- Reinterpret a 32-bit pattern as a signed integer (`ToInt32` result). -/
def ofUInt32Signed (u : Nat) : Int :=
  if u < 2147483648 then (u : Int) else (u : Int) - 4294967296

/-- JS `(m >> i) & 1`, as a bit test (for `0 ≤ i < 32`; arithmetic versus
logical shift is irrelevant once masked with 1 below bit 31, and the source
only uses `i < 9`). -/
def jsBit (m : Int) (i : Nat) : Bool :=
  (toUInt32 m >>> (i % 32)) &&& 1 = 1

/-- JS `m & ~(1 << idx)` under `ToInt32` semantics. -/
def jsClearBit (m : Int) (idx : Nat) : Int :=
  ofUInt32Signed (toUInt32 m &&& (4294967295 ^^^ (1 <<< (idx % 32))))

/-- JS `acc | (1 << i)` under `ToInt32` semantics. -/
def jsSetBit (m : Int) (i : Nat) : Int :=
  ofUInt32Signed (toUInt32 m ||| ((1 <<< (i % 32)) % 4294967296))

/-! ## The state codec (`encodeState` / `decodeState`) -/

/-- A draw state as the source constructs it at every `encodeState` call
site (`createInitialLink`, `drawOne`): an object `\x7b mask, meta: \x7b createdAt \x7d \x7d`
with a numeric mask and an optional numeric `createdAt` (a missing
`createdAt` models the JS `undefined` field). -/
structure DrawState where
  mask : Nat
  createdAt : Option Nat
deriving DecidableEq

/-- `encodeState` (`pages/index.js:37-50`) on a state with a numeric mask:
the compact branch `m<maskBase36>[.t<timeBase36>]`. The truthiness test
`obj.meta?.createdAt ?` makes a `createdAt` of `0` behave like an absent
one. The base64-JSON fallback branch (lines 44-49) is taken only for
objects without a numeric `mask`, which no modelled call site produces, so
it is outside this embedding. -/
def encodeState (st : DrawState) : String :=
  let maskStr := toString36 st.mask
  let time :=
    match st.createdAt with
    | some c => if c ≠ 0 then toString36 (c / 1000) else ""
    | none => ""
  if time ≠ "" then "m" ++ maskStr ++ ".t" ++ time else "m" ++ maskStr

/-- The compact-grammar match `^m([0-9a-z]+)(?:\.t([0-9a-z]+))?$` with the
`/i` flag (`pages/index.js:64`): returns the two captured digit groups.
Implemented by splitting at the first non-digit, which agrees with the
regex because `'.'` is not a `[0-9a-z]` digit and the optional group must
run to the end of the string. -/
def compactMatch (s : String) : Option (List Char × Option (List Char)) :=
  match s.data with
  | c :: rest =>
    if c = 'm' ∨ c = 'M' then
      let ds := rest.takeWhile isDigit36
      let tl := rest.dropWhile isDigit36
      if ds.isEmpty then none
      else
        match tl with
        | [] => some (ds, none)
        | d :: t :: ts =>
          if d = '.' ∧ (t = 't' ∨ t = 'T') ∧ !ts.isEmpty ∧ ts.all isDigit36 then
            some (ds, some ts)
          else none
        | _ => none
    else none
  | [] => none

/-- The items array rebuilt by the compact branch (`pages/index.js:69-71`):
`DEFAULT_THEMES.map((label, index) => ((mask >> index) & 1) ? ... : null).filter(Boolean)`. -/
def compactItems (mask : Nat) : List JVal :=
  (List.range DEFAULT_THEMES.length).filterMap (fun i =>
    if jsBit (mask : Int) i then
      some (.jobj [("id", .jstr (toString i)), ("label", .jstr (DEFAULT_THEMES.getD i ""))])
    else none)

/-- The object returned by the compact branch (`pages/index.js:72`):
`\x7b mask, items, meta: \x7b createdAt \x7d \x7d`, with an absent field for an
`undefined` `createdAt`. -/
def mkDecodedObj (mask : Nat) (createdAt : Option Nat) : JVal :=
  .jobj [("mask", .jnum mask), ("items", .jarr (compactItems mask)),
         ("meta", .jobj (match createdAt with
                         | some c => [("createdAt", .jnum c)]
                         | none => []))]

/-- The compact branch of `decodeState` (`pages/index.js:63-73`):
`mask = parseInt(m[1], 36) || 0`, `createdAt = m[2] ? parseInt(m[2], 36) * 1000 : undefined`. -/
def compactDecode (s : String) : Option JVal :=
  match compactMatch s with
  | some (ds, ts?) =>
    some (mkDecodedObj ((jsParseInt36 ds).getD 0)
      (ts?.map (fun ts => (jsParseInt36 ts).getD 0 * 1000)))
  | none => none

/-- The legacy attempt of `decodeState` (`pages/index.js:56-61`):
base64url-decode, then `JSON.parse` guarded by the truthiness of the
decoded text; any failure falls through. -/
def legacyParse (s : String) : Option JVal :=
  match base64UrlDecode s with
  | some t => if t ≠ "" then jsonParse t else none
  | none => none

/-- `decodeState` (`pages/index.js:52-76`): legacy base64-JSON first, then
the compact grammar, else `null`. -/
def decodeState (s : String) : Option JVal :=
  if s = "" then none
  else
    match legacyParse s with
    | some v => some v
    | none => compactDecode s

/-! ## The draw engine (`drawOne`) -/

/-! The mask reconstruction for legacy payloads (`pages/index.js:146-148`):
`(decoded.items || DEFAULT_THEMES.map((_, i) => (\x7b id: i \x7d))).reduce((acc, it, i) =>
(decoded.items?.some(x => x.id === String(i) || x.label === DEFAULT_THEMES[i])) ? (acc | (1 << i)) : acc, 0)`.
Note the reduce runs over the *items list* (or the 9-element default when
`items` is falsy), so the callback index `i` ranges over item positions,
not pool indices. `none` models the `TypeError` of `.reduce`/`?.some` on a
truthy non-array or a falsy non-nullish `items`. -/

/-- `x.id === String(i) || x.label === DEFAULT_THEMES[i]` (strict equality;
`undefined === undefined` holds when both the label field and the pool slot
are absent). -/
def legacyItemHit (i : Nat) (x : JVal) : Bool :=
  (match x.getField "id" with
   | some (.jstr s) => s == toString i
   | _ => false)
  || (match x.getField "label", DEFAULT_THEMES.get? i with
      | none, none => true
      | some (.jstr s), some t => s == t
      | _, _ => false)

/-- `decoded.items?.some(pred i)`: `undefined`/`null` short-circuit to
`undefined` (falsy); arrays run `some`; anything else throws (`none`). -/
def legacySomeCheck (itemsF : Option JVal) (i : Nat) : Option Bool :=
  match itemsF with
  | none => some false
  | some .jnull => some false
  | some (.jarr xs) => some (xs.any (legacyItemHit i))
  | some _ => none

/-- The length of the list the legacy reduce runs over: `decoded.items`
when truthy (must be an array, else `TypeError`), otherwise the 9-element
default. -/
def legacyReduceLen (itemsF : Option JVal) : Option Nat :=
  match itemsF with
  | some v =>
    if jTruthy v then
      match v with
      | .jarr xs => some xs.length
      | _ => none
    else some DEFAULT_THEMES.length
  | none => some DEFAULT_THEMES.length

/-- The reconstructed legacy mask (JS number, int32 after the first `|`). -/
def legacyMask (decoded : JVal) : Option Int :=
  let itemsF := decoded.getField "items"
  match legacyReduceLen itemsF with
  | none => none
  | some len =>
    (List.range len).foldlM
      (fun acc i => (legacySomeCheck itemsF i).map
        (fun b => if b then jsSetBit acc i else acc)) (0 : Int)

/-- The available pool indices of a mask (`pages/index.js:151-154`). -/
def availList (mask : Int) : List Nat :=
  (List.range DEFAULT_THEMES.length).filter (fun i => jsBit mask i)

/-- The state object `drawOne` builds for re-encoding
(`pages/index.js:165`): the new mask plus the carried (or freshly stamped)
`meta`. -/
structure NextState where
  mask : Int
  meta : JVal

/-- Result of a draw: the terminal outcome, or a picked label together with
the successor state. -/
inductive DrawResult where
  | exhausted : DrawResult
  | drawn (pickLabel : String) (next : NextState) : DrawResult

/-- `drawOne` (`pages/index.js:138-172`) as a pure transition on the
decoded state. `now` injects `Date.now()`; `rand` injects
`Math.floor(Math.random() * available.length)`, which the platform
guarantees to be below `available.length` — a `rand` outside that contract
is answered with `none`, like the other out-of-model JS faults.

First the mask in use (`pages/index.js:143-148`): the numeric `mask` field
when present, otherwise the legacy reconstruction. -/
def jsMaskOf (decoded : JVal) : Option Int :=
  match decoded.getField "mask" with
  | some (.jnum n) => some n
  | _ => legacyMask decoded

/-- The `meta` carried into the new state (`pages/index.js:165`):
`decoded?.meta ?? \x7b createdAt: Date.now() \x7d` — the nullish-coalescing
fallback stamps a fresh timestamp when `meta` is absent or `null`. -/
def stampMeta (decoded : JVal) (now : Nat) : JVal :=
  match decoded.getField "meta" with
  | none => .jobj [("createdAt", .jnum now)]
  | some .jnull => .jobj [("createdAt", .jnum now)]
  | some v => v

def drawOne (decoded : JVal) (now : Nat) (rand : Nat) : Option DrawResult :=
  match jsMaskOf decoded with
  | none => none
  | some mask =>
    if (availList mask).length = 0 then some .exhausted
    else
      match (availList mask).get? rand with
      | none => none
      | some idx =>
        some (.drawn (DEFAULT_THEMES.getD idx "")
          { mask := jsClearBit mask idx, meta := stampMeta decoded now })

/-- The seed mask of `createInitialLink` (`pages/index.js:129`):
`(1 << DEFAULT_THEMES.length) - 1`. -/
def initialMask : Nat := (1 <<< DEFAULT_THEMES.length) - 1

/-! ## Observations

Projections into decidable-equality types, used to state concrete facts
about decode/draw results. -/

/-- The numeric `mask` field of a decode result (`none` when the result is
`null`, not an object, or has no numeric mask). -/
def decodedMaskNum (r : Option JVal) : Option Int :=
  match r.bind (fun v => v.getField "mask") with
  | some (.jnum n) => some n
  | _ => none

/-- The numeric `meta.createdAt` field of a decode result. -/
def decodedCreatedAtNum (r : Option JVal) : Option Int :=
  match (r.bind (fun v => v.getField "meta")).bind (fun v => v.getField "createdAt") with
  | some (.jnum n) => some n
  | _ => none

/-- The string labels of the `items` field of a decode result. -/
def decodedItemsLabels (r : Option JVal) : Option (List String) :=
  match r.bind (fun v => v.getField "items") with
  | some (.jarr xs) =>
    some (xs.filterMap (fun x =>
      match x.getField "label" with
      | some (.jstr l) => some l
      | _ => none))
  | _ => none

/-- The picked label of a draw result. -/
def drawLabel : Option DrawResult → Option String
  | some (.drawn l _) => some l
  | _ => none

/-- The successor mask of a draw result. -/
def drawMask : Option DrawResult → Option Int
  | some (.drawn _ st) => some st.mask
  | _ => none

/-- The numeric `createdAt` of the successor state's `meta`. -/
def drawMetaCreatedAt : Option DrawResult → Option Int
  | some (.drawn _ st) =>
    match st.meta.getField "createdAt" with
    | some (.jnum n) => some n
    | _ => none
  | _ => none

/-- Whether a draw result is the terminal `Exhausted` outcome. -/
def drawIsExhausted : Option DrawResult → Bool
  | some .exhausted => true
  | _ => false

/-- Whether the first byte produced by the base64 stage lies in the UTF-8
continuation range `0x98..0x9B` (the bytes that begin every base64 decode
of an `m`-led token). -/
def firstByteIsCont (o : Option (List Nat)) : Bool :=
  match o with
  | some (b :: _) => 152 ≤ b && b ≤ 155
  | _ => false

/-- Characters safe in a URL query value without percent-encoding, as the
spec enumerates them for this codec: base-36 digits (lowercase) and `'.'`. -/
def urlSafeChar (c : Char) : Bool :=
  ('0' ≤ c && c ≤ '9') || ('a' ≤ c && c ≤ 'z') || c = '.'

/-- Number of set bits among the nine pool positions. -/
def setBitsCount (n : Nat) : Nat :=
  ((List.range DEFAULT_THEMES.length).filter (fun i => n.testBit i)).length

/-- The decoded object `drawOne` receives when its input carries a numeric
mask (the shape common to both grammars), with an optional carried `meta`. -/
def mkMaskState (m : Int) (meta : Option JVal) : JVal :=
  .jobj ([("mask", .jnum m)] ++ (match meta with
                                 | some v => [("meta", v)]
                                 | none => []))

/-! ## Base-36 printer/parser lemmas -/

lemma digVal36_digitChar36 : ∀ d, d < 36 → digVal36 (digitChar36 d) = d := by decide

lemma isDigit36_digitChar36 : ∀ d, d < 36 → isDigit36 (digitChar36 d) = true := by decide

lemma urlSafe_digitChar36 : ∀ d, d < 36 → urlSafeChar (digitChar36 d) = true := by decide

lemma val36_append_singleton (xs : List Char) (c : Char) :
    val36 (xs ++ [c]) = val36 xs * 36 + digVal36 c := by
  simp [val36, List.foldl_append]

lemma val36_ts36Aux : ∀ fuel n, n ≤ fuel → val36 (ts36Aux fuel n) = n := by
  intro fuel
  induction fuel with
  | zero =>
    intro n hn
    interval_cases n
    rfl
  | succ fuel ih =>
    intro n hn
    match n with
    | 0 => rfl
    | n + 1 =>
      have hdiv : (n + 1) / 36 ≤ fuel := by
        have := Nat.div_le_self (n + 1) 36
        have := Nat.div_lt_self (Nat.succ_pos n) (by omega : 1 < 36)
        omega
      show val36 (ts36Aux fuel ((n + 1) / 36) ++ [digitChar36 ((n + 1) % 36)]) = n + 1
      rw [val36_append_singleton, ih _ hdiv,
        digVal36_digitChar36 _ (Nat.mod_lt _ (by omega))]
      omega

lemma val36_ts36 (n : Nat) : val36 (ts36 n) = n := by
  by_cases h : n = 0
  · subst h; rfl
  · simp only [ts36, if_neg h]
    exact val36_ts36Aux n n le_rfl

lemma ts36Aux_digits : ∀ fuel n c, c ∈ ts36Aux fuel n → isDigit36 c = true := by
  intro fuel
  induction fuel with
  | zero =>
    intro n c hc
    match n with
    | 0 => cases hc
    | _ + 1 => cases hc
  | succ fuel ih =>
    intro n c hc
    match n with
    | 0 => cases hc
    | n + 1 =>
      rcases List.mem_append.mp hc with h | h
      · exact ih _ _ h
      · rcases List.mem_singleton.mp h with rfl
        exact isDigit36_digitChar36 _ (Nat.mod_lt _ (by omega))

lemma ts36_digits (n : Nat) : ∀ c ∈ ts36 n, isDigit36 c = true := by
  intro c hc
  by_cases h : n = 0
  · subst h
    rcases List.mem_singleton.mp hc with rfl
    rfl
  · simp only [ts36, if_neg h] at hc
    exact ts36Aux_digits n n c hc

lemma ts36Aux_urlSafe : ∀ fuel n c, c ∈ ts36Aux fuel n → urlSafeChar c = true := by
  intro fuel
  induction fuel with
  | zero =>
    intro n c hc
    match n with
    | 0 => cases hc
    | _ + 1 => cases hc
  | succ fuel ih =>
    intro n c hc
    match n with
    | 0 => cases hc
    | n + 1 =>
      rcases List.mem_append.mp hc with h | h
      · exact ih _ _ h
      · rcases List.mem_singleton.mp h with rfl
        exact urlSafe_digitChar36 _ (Nat.mod_lt _ (by omega))

lemma ts36_urlSafe (n : Nat) : ∀ c ∈ ts36 n, urlSafeChar c = true := by
  intro c hc
  by_cases h : n = 0
  · subst h
    rcases List.mem_singleton.mp hc with rfl
    rfl
  · simp only [ts36, if_neg h] at hc
    exact ts36Aux_urlSafe n n c hc

lemma ts36_ne_nil (n : Nat) : ts36 n ≠ [] := by
  by_cases h : n = 0
  · subst h; simp [ts36]
  · simp only [ts36, if_neg h]
    match n, h with
    | n + 1, _ => simp [ts36Aux]

/-! ## takeWhile / dropWhile splitting -/

lemma takeWhile_all (p : Char → Bool) :
    ∀ l : List Char, (∀ c ∈ l, p c = true) → l.takeWhile p = l := by
  intro l
  induction l with
  | nil => intro _; rfl
  | cons a l ih =>
    intro h
    simp only [List.takeWhile_cons, h a (List.mem_cons_self a l)]
    rw [ih (fun c hc => h c (List.mem_cons_of_mem a hc))]
    simp

lemma dropWhile_all (p : Char → Bool) :
    ∀ l : List Char, (∀ c ∈ l, p c = true) → l.dropWhile p = [] := by
  intro l
  induction l with
  | nil => intro _; rfl
  | cons a l ih =>
    intro h
    simp only [List.dropWhile_cons, h a (List.mem_cons_self a l)]
    exact ih (fun c hc => h c (List.mem_cons_of_mem a hc))

lemma takeWhile_append_stop (p : Char → Bool) (x : Char) (r : List Char)
    (hx : p x = false) :
    ∀ l : List Char, (∀ c ∈ l, p c = true) → (l ++ x :: r).takeWhile p = l := by
  intro l
  induction l with
  | nil => intro _; simp [List.takeWhile_cons, hx]
  | cons a l ih =>
    intro h
    simp only [List.cons_append, List.takeWhile_cons, h a (List.mem_cons_self a l)]
    rw [ih (fun c hc => h c (List.mem_cons_of_mem a hc))]
    simp

lemma dropWhile_append_stop (p : Char → Bool) (x : Char) (r : List Char)
    (hx : p x = false) :
    ∀ l : List Char, (∀ c ∈ l, p c = true) → (l ++ x :: r).dropWhile p = x :: r := by
  intro l
  induction l with
  | nil => intro _; simp [List.dropWhile_cons, hx]
  | cons a l ih =>
    intro h
    simp only [List.cons_append, List.dropWhile_cons, h a (List.mem_cons_self a l)]
    exact ih (fun c hc => h c (List.mem_cons_of_mem a hc))

/-! ## Encoded-token structure -/

lemma encodeState_none_data (m : Nat) :
    (encodeState ⟨m, none⟩).data = 'm' :: ts36 m := by
  show (("m" ++ toString36 m : String)).data = 'm' :: ts36 m
  rw [String.data_append]
  rfl

lemma encodeState_some_zero (m : Nat) :
    encodeState ⟨m, some 0⟩ = encodeState ⟨m, none⟩ := by
  simp [encodeState]

lemma toString36_ne_empty (n : Nat) : toString36 n ≠ "" := by
  intro h
  have : (toString36 n).data = ("" : String).data := by rw [h]
  simp only [toString36] at this
  exact ts36_ne_nil n this

lemma encodeState_some_data (m c : Nat) (hc : c ≠ 0) :
    (encodeState ⟨m, some c⟩).data
      = 'm' :: (ts36 m ++ '.' :: 't' :: ts36 (c / 1000)) := by
  have h1 : encodeState ⟨m, some c⟩ = "m" ++ toString36 m ++ ".t" ++ toString36 (c / 1000) := by
    unfold encodeState
    simp [hc, toString36_ne_empty (c / 1000)]
  rw [h1]
  simp only [String.data_append]
  show ('m' :: ts36 m) ++ ('.' :: 't' :: []) ++ ts36 (c / 1000) = _
  simp

/-! ## Compact-grammar matching of encoded tokens -/

lemma isDigit36_dot : isDigit36 '.' = false := rfl

lemma list_isEmpty_false {l : List Char} (h : l ≠ []) : l.isEmpty = false := by
  cases l with
  | nil => exact absurd rfl h
  | cons a l => rfl

lemma compactMatch_of_data_nosuffix (s : String) (ds : List Char)
    (hdata : s.data = 'm' :: ds) (hne : ds ≠ [])
    (hdig : ∀ c ∈ ds, isDigit36 c = true) :
    compactMatch s = some (ds, none) := by
  unfold compactMatch
  rw [hdata]
  simp only [if_pos (Or.inl rfl)]
  rw [takeWhile_all _ ds hdig, dropWhile_all _ ds hdig,
    list_isEmpty_false hne]
  rfl

lemma compactMatch_of_data_suffix (s : String) (ds ts : List Char)
    (hdata : s.data = 'm' :: (ds ++ '.' :: 't' :: ts))
    (hne : ds ≠ []) (hdig : ∀ c ∈ ds, isDigit36 c = true)
    (htne : ts ≠ []) (htdig : ∀ c ∈ ts, isDigit36 c = true) :
    compactMatch s = some (ds, some ts) := by
  unfold compactMatch
  rw [hdata]
  simp only [if_pos (Or.inl rfl)]
  rw [takeWhile_append_stop _ '.' ('t' :: ts) isDigit36_dot ds hdig,
    dropWhile_append_stop _ '.' ('t' :: ts) isDigit36_dot ds hdig,
    list_isEmpty_false hne]
  have hall : ts.all isDigit36 = true := List.all_eq_true.mpr htdig
  simp [list_isEmpty_false htne, hall]

lemma jsParseInt36_all_digits (ds : List Char) (hne : ds ≠ [])
    (hdig : ∀ c ∈ ds, isDigit36 c = true) :
    jsParseInt36 ds = some (val36 ds) := by
  unfold jsParseInt36
  rw [takeWhile_all _ ds hdig, list_isEmpty_false hne]
  rfl

/-! ## Tokens containing a dot never pass the base64 stage -/

lemma b64Index_dot : b64Index '.' = none := by decide

lemma b64Vals_of_dot : ∀ l : List Char, '.' ∈ l → b64Vals l = none := by
  intro l h
  induction l with
  | nil => cases h
  | cons a l ih =>
    rcases List.mem_cons.mp h with rfl | h'
    · unfold b64Vals
      rw [b64Index_dot]
    · unfold b64Vals
      rw [ih h']
      try (cases b64Index a <;> rfl)

lemma mem_stripPad {a : Char} {l : List Char} (h : a ∈ l) (ha : a ≠ '=') :
    a ∈ stripPad l := by
  have h' : a ∈ l.reverse := List.mem_reverse.mpr h
  unfold stripPad
  split
  case _ rest heq =>
    rw [heq] at h'
    simp only [List.mem_cons] at h'
    rcases h' with rfl | rfl | h'
    · exact absurd rfl ha
    · exact absurd rfl ha
    · exact List.mem_reverse.mpr h'
  case _ x heq2 =>
    rw [heq2] at h'
    simp only [List.mem_cons] at h'
    rcases h' with rfl | h'
    · exact absurd rfl ha
    · exact List.mem_reverse.mpr h'
  case _ => exact h

lemma mem_atobBody_of_dot {cs : List Char} (h : '.' ∈ cs) : '.' ∈ atobBody cs := by
  have h1 : '.' ∈ cs.filter (fun c => !isB64Ws c) :=
    List.mem_filter.mpr ⟨h, by decide⟩
  unfold atobBody
  split
  · exact mem_stripPad h1 (by decide)
  · exact h1

lemma atobChars_of_dot {cs : List Char} (h : '.' ∈ cs) : atobChars cs = none := by
  unfold atobChars
  split
  · rfl
  · rw [b64Vals_of_dot _ (mem_atobBody_of_dot h)]

lemma data_ne_nil_of_mem {a : Char} {s : String} (h : a ∈ s.data) : s ≠ "" := by
  intro he
  rw [he] at h
  cases h

lemma b64BytesOf_of_dot {s : String} (h : '.' ∈ s.data) : b64BytesOf s = none := by
  unfold b64BytesOf
  rw [if_neg (data_ne_nil_of_mem h)]
  apply atobChars_of_dot
  apply List.mem_append_left
  unfold b64Mapped
  exact List.mem_map.mpr ⟨'.', h, by decide⟩

lemma base64UrlDecode_of_dot {s : String} (h : '.' ∈ s.data) :
    base64UrlDecode s = none := by
  unfold base64UrlDecode
  rw [b64BytesOf_of_dot h]

/-! ## Decode composition -/

lemma legacyParse_none_of_b64_none {s : String} (h : base64UrlDecode s = none) :
    legacyParse s = none := by
  unfold legacyParse
  rw [h]

lemma compactMatch_empty : compactMatch "" = none := rfl

lemma decodeState_eq_compact {s : String} (h : legacyParse s = none) :
    decodeState s = compactDecode s := by
  unfold decodeState
  split
  case _ he =>
    subst he
    rfl
  case _ =>
    rw [h]

lemma decodeState_eq_legacy {s : String} {v : JVal} (h : legacyParse s = some v) :
    decodeState s = some v := by
  have hs : s ≠ "" := by
    intro he
    subst he
    exact Option.noConfusion (rfl.symm.trans h)
  unfold decodeState
  rw [if_neg hs, h]

/-! ## Decoded-object projections -/

lemma decodedMaskNum_mk (m : Nat) (ca : Option Nat) :
    decodedMaskNum (some (mkDecodedObj m ca)) = some (m : Int) := rfl

lemma decodedCreatedAtNum_mk_some (m c : Nat) :
    decodedCreatedAtNum (some (mkDecodedObj m (some c))) = some (c : Int) := rfl

lemma decodedCreatedAtNum_mk_none (m : Nat) :
    decodedCreatedAtNum (some (mkDecodedObj m none)) = none := rfl

lemma compactDecode_of_match (s : String) (ds : List Char) (ts? : Option (List Char))
    (h : compactMatch s = some (ds, ts?)) :
    compactDecode s
      = some (mkDecodedObj ((jsParseInt36 ds).getD 0)
          (ts?.map (fun ts => (jsParseInt36 ts).getD 0 * 1000))) := by
  unfold compactDecode
  rw [h]

/-! ## Draw-engine lemmas -/

lemma get?_eq_getD {l : List Nat} {n : Nat} (h : n < l.length) :
    l.get? n = some (l.getD n 0) := by
  rw [List.getD_eq_getElem?_getD, List.get?_eq_getElem?, List.getElem?_eq_getElem h]
  rfl

lemma getD_mem {l : List Nat} {n : Nat} (h : n < l.length) : l.getD n 0 ∈ l := by
  rw [List.getD_eq_getElem?_getD, List.getElem?_eq_getElem h]
  exact List.getElem_mem h

lemma mkMaskState_mask (m : Int) (meta : Option JVal) :
    (mkMaskState m meta).getField "mask" = some (.jnum m) := by
  cases meta <;> rfl

lemma mkMaskState_meta_some (m : Int) (v : JVal) :
    (mkMaskState m (some v)).getField "meta" = some v := rfl

lemma mkMaskState_meta_none (m : Int) :
    (mkMaskState m none).getField "meta" = none := rfl

lemma jsMaskOf_mkMaskState (m : Int) (meta : Option JVal) :
    jsMaskOf (mkMaskState m meta) = some m := by
  unfold jsMaskOf
  rw [mkMaskState_mask]

/-- Forward evaluation of `drawOne` on a state with a numeric mask and an
in-contract random index. -/
lemma drawOne_eq_drawn (decoded : JVal) (now rand : Nat) (m : Int)
    (hm : jsMaskOf decoded = some m) (hr : rand < (availList m).length) :
    drawOne decoded now rand
      = some (.drawn (DEFAULT_THEMES.getD ((availList m).getD rand 0) "")
          { mask := jsClearBit m ((availList m).getD rand 0)
            meta := stampMeta decoded now }) := by
  simp only [drawOne, hm]
  rw [if_neg (by omega : ¬ (availList m).length = 0), get?_eq_getD hr]

/-- Inversion: a `drawn` result pins down the picked index, the successor
mask and the successor meta. -/
lemma drawOne_drawn_inv (decoded : JVal) (now rand : Nat) (m : Int)
    (lbl : String) (next : NextState)
    (hm : jsMaskOf decoded = some m)
    (h : drawOne decoded now rand = some (.drawn lbl next)) :
    ∃ idx, idx ∈ availList m ∧ lbl = DEFAULT_THEMES.getD idx ""
      ∧ next.mask = jsClearBit m idx ∧ next.meta = stampMeta decoded now := by
  simp only [drawOne, hm] at h
  split at h
  · exact absurd (Option.some.inj h) (by intro hc; cases hc)
  · cases hg : (availList m).get? rand with
    | none =>
      rw [hg] at h
      cases h
    | some idx =>
      rw [hg] at h
      dsimp only at h
      have h2 := Option.some.inj h
      cases h2
      exact ⟨idx, List.get?_mem hg, rfl, rfl, rfl⟩

lemma availList_length_zero (m : Int) (h : (availList m).length = 0)
    (now rand : Nat) (decoded : JVal) (hm : jsMaskOf decoded = some m) :
    drawOne decoded now rand = some .exhausted := by
  simp only [drawOne, hm]
  rw [if_pos h]

lemma mem_availList {m : Int} {i : Nat} :
    i ∈ availList m ↔ i < DEFAULT_THEMES.length ∧ jsBit m i = true := by
  unfold availList
  rw [List.mem_filter, List.mem_range]

/-! ## Finite bit-arithmetic facts over the nine-bit state space -/

lemma jsBit_eq_testBit : ∀ m : Nat, m < 512 → ∀ i : Nat, i < 9 →
    jsBit (m : Int) i = m.testBit i := by decide

lemma clearBit_facts : ∀ m : Nat, m < 512 → ∀ i : Nat, i < 9 → m.testBit i = true →
    jsClearBit (m : Int) i = ((m - 2 ^ i : Nat) : Int)
      ∧ (m - 2 ^ i) &&& m = m - 2 ^ i
      ∧ setBitsCount (m - 2 ^ i) < setBitsCount m
      ∧ m - 2 ^ i ≤ 511 := by decide

lemma availList_count_one : ∀ m : Nat, m < 512 → ∀ i : Nat, i < 9 → m.testBit i = true →
    ((List.range (availList (m : Int)).length).filter
      (fun r => (availList (m : Int)).getD r 0 == i)).length = 1 := by decide

lemma availList_empty_of_zero : availList ((0 : Nat) : Int) = [] := by decide

lemma availList_nonempty : ∀ m : Nat, m < 512 → m ≠ 0 →
    (availList (m : Int)).length ≠ 0 := by decide

/-! ## Finite compact-pipeline facts (tokens without a time suffix) -/

lemma roundtrip_nosuffix : ∀ m : Nat, m < 512 →
    decodedMaskNum (decodeState (encodeState ⟨m, none⟩)) = some (m : Int)
      ∧ decodedCreatedAtNum (decodeState (encodeState ⟨m, none⟩)) = none := by
  decide

lemma b64_fails_nosuffix : ∀ m : Nat, m < 512 →
    base64UrlDecode (encodeState ⟨m, none⟩) = none
      ∧ firstByteIsCont (b64BytesOf (encodeState ⟨m, none⟩)) = true := by
  decide

lemma compact_isSome_nosuffix : ∀ m : Nat, m < 512 →
    (compactDecode (encodeState ⟨m, none⟩)).isSome = true := by decide

/-! ## Encode/decode assembly -/

lemma encodeState_none_eq (m : Nat) :
    encodeState ⟨m, none⟩ = "m" ++ toString36 m := rfl

lemma encodeState_some_eq (m c : Nat) (hc : c ≠ 0) :
    encodeState ⟨m, some c⟩
      = "m" ++ toString36 m ++ ".t" ++ toString36 (c / 1000) := by
  unfold encodeState
  simp [hc, toString36_ne_empty (c / 1000)]

lemma compactMatch_encode_suffix (m c : Nat) (hc : c ≠ 0) :
    compactMatch (encodeState ⟨m, some c⟩)
      = some (ts36 m, some (ts36 (c / 1000))) :=
  compactMatch_of_data_suffix _ _ _ (encodeState_some_data m c hc)
    (ts36_ne_nil m) (ts36_digits m) (ts36_ne_nil _) (ts36_digits _)

lemma dot_mem_encode_suffix (m c : Nat) (hc : c ≠ 0) :
    '.' ∈ (encodeState ⟨m, some c⟩).data := by
  rw [encodeState_some_data m c hc]
  exact List.mem_cons_of_mem _ (List.mem_append_right _ (List.mem_cons_self _ _))

lemma decode_encode_suffix (m c : Nat) (hc : c ≠ 0) :
    decodeState (encodeState ⟨m, some c⟩)
      = some (mkDecodedObj m (some (c / 1000 * 1000))) := by
  rw [decodeState_eq_compact (legacyParse_none_of_b64_none
      (base64UrlDecode_of_dot (dot_mem_encode_suffix m c hc))),
    compactDecode_of_match _ _ _ (compactMatch_encode_suffix m c hc)]
  simp only [Option.map_some']
  rw [jsParseInt36_all_digits _ (ts36_ne_nil m) (ts36_digits m),
    jsParseInt36_all_digits _ (ts36_ne_nil (c / 1000)) (ts36_digits (c / 1000))]
  simp [val36_ts36]

lemma compactMatch_digits {s : String} {ds : List Char} {ts? : Option (List Char)}
    (h : compactMatch s = some (ds, ts?)) :
    ds ≠ [] ∧ ∀ c ∈ ds, isDigit36 c = true := by
  unfold compactMatch at h
  split at h
  case _ hd rest heq =>
    simp only [] at h
    split_ifs at h with h1 h2
    · have hds : ds = rest.takeWhile isDigit36 := by
        split at h
        · cases Option.some.inj h.symm
          rfl
        · split_ifs at h
          cases Option.some.inj h.symm
          rfl
        · simp at h
      subst hds
      exact ⟨fun hh => h2 (by rw [hh]; rfl), fun c hc => List.mem_takeWhile_imp hc⟩
  case _ => simp at h

/-! ## Claim theorems -/

/-- C3 (amended): the initial seed is `2^9 - 1` and the draw transition
preserves the `[0, 2^9 - 1]` range; decode, however, does not enforce the
range (see the counterexample). -/
theorem C3_range_invariant :
    initialMask = 2 ^ 9 - 1
    ∧ ∀ (m : Nat) (meta : Option JVal) (now rand : Nat) (lbl : String)
        (next : NextState), m ≤ 511 →
        drawOne (mkMaskState (m : Int) meta) now rand = some (.drawn lbl next) →
        0 ≤ next.mask ∧ next.mask ≤ 511 := by
  refine ⟨rfl, ?_⟩
  intro m meta now rand lbl next h511 hdraw
  obtain ⟨idx, hidx, -, hmask, -⟩ :=
    drawOne_drawn_inv _ now rand _ lbl next (jsMaskOf_mkMaskState _ meta) hdraw
  obtain ⟨hi9, hbit⟩ := mem_availList.mp hidx
  have hi9' : idx < 9 := by
    have h9 : DEFAULT_THEMES.length = 9 := rfl
    omega
  rw [jsBit_eq_testBit m (by omega) idx hi9'] at hbit
  obtain ⟨hclear, -, -, hle⟩ := clearBit_facts m (by omega) idx hi9' hbit
  rw [hmask, hclear]
  constructor
  · exact Int.ofNat_nonneg _
  · exact_mod_cast hle

/-- C3 witness: a concrete draw from the full mask stays in range. -/
theorem C3_range_witness :
    (511 : Nat) ≤ 511
    ∧ drawOne (mkMaskState ((511 : Nat) : Int) none) 0 0
        = some (.drawn "Basketball" ⟨510, .jobj [("createdAt", .jnum 0)]⟩)
    ∧ (0 ≤ (510 : Int) ∧ (510 : Int) ≤ 511) :=
  ⟨by omega, rfl,
    C3_range_invariant.2 511 none 0 0 "Basketball"
      ⟨510, .jobj [("createdAt", .jnum 0)]⟩ (by omega) rfl⟩

/-- C3 counterexample: `decodeState` does not keep the mask within
`[0, 2^9 - 1]` — the compact token `"mzz"` decodes to remaining `1295`. -/
theorem C3_decode_range_counterexample :
    decodedMaskNum (decodeState "mzz") = some 1295
    ∧ ¬ (1295 : Int) ≤ 2 ^ 9 - 1 := by decide

/-- C5 (amended): when the decoded input state carries a non-null `meta`,
`drawOne` carries it (and hence `createdAt`) over unchanged; when `meta`
is absent or null the engine stamps `\x7b createdAt: Date.now() \x7d` (see the
counterexample). -/
theorem C5_meta_frame (decoded : JVal) (now rand : Nat) (v : JVal)
    (lbl : String) (next : NextState)
    (hmeta : decoded.getField "meta" = some v) (hnn : v ≠ .jnull)
    (hdraw : drawOne decoded now rand = some (.drawn lbl next)) :
    next.meta = v := by
  cases hm : jsMaskOf decoded with
  | none =>
    unfold drawOne at hdraw
    rw [hm] at hdraw
    cases hdraw
  | some m =>
    obtain ⟨idx, -, -, -, hmetaEq⟩ :=
      drawOne_drawn_inv _ now rand _ lbl next hm hdraw
    rw [hmetaEq]
    unfold stampMeta
    rw [hmeta]
    cases v with
    | jnull => exact absurd rfl hnn
    | jbool b => rfl
    | jnum n => rfl
    | jstr s => rfl
    | jarr xs => rfl
    | jobj fs => rfl

/-- C5 witness: a decoded state with `meta = \x7b createdAt: 1000 \x7d` keeps
exactly that meta across a draw. -/
theorem C5_meta_frame_witness :
    (mkMaskState 7 (some (.jobj [("createdAt", .jnum 1000)]))).getField "meta"
        = some (.jobj [("createdAt", .jnum 1000)])
    ∧ drawOne (mkMaskState 7 (some (.jobj [("createdAt", .jnum 1000)]))) 5 0
        = some (.drawn "Basketball" ⟨6, .jobj [("createdAt", .jnum 1000)]⟩)
    ∧ (⟨6, .jobj [("createdAt", .jnum 1000)]⟩ : NextState).meta
        = .jobj [("createdAt", .jnum 1000)] :=
  ⟨rfl, rfl,
    C5_meta_frame (mkMaskState 7 (some (.jobj [("createdAt", .jnum 1000)]))) 5 0
      (.jobj [("createdAt", .jnum 1000)]) "Basketball"
      ⟨6, .jobj [("createdAt", .jnum 1000)]⟩ rfl (by intro h; cases h) rfl⟩

/-- C5 counterexample: the reachable legacy state `base64url("\x7b\"mask\":1\x7d")`
has no `meta` at all, and `drawOne` stamps a fresh creation time (`now = 777`)
instead of carrying `createdAt` over unchanged. -/
theorem C5_stamp_counterexample :
    decodedMaskNum (decodeState "eyJtYXNrIjoxfQ") = some 1
    ∧ decodedCreatedAtNum (decodeState "eyJtYXNrIjoxfQ") = none
    ∧ drawMetaCreatedAt ((decodeState "eyJtYXNrIjoxfQ").bind
        (fun d => drawOne d 777 0)) = some 777 := by decide

/-- C7 (confirmed): on a non-exhausted nine-bit state the draw clears
exactly the picked set bit — the new mask is `state & ~(1 << idx)`,
`next & state == next`, and the set-bit count strictly decreases — while a
state with remaining `0` always yields `Exhausted`. -/
theorem C7_monotonic_draw :
    (∀ (m : Nat) (meta : Option JVal) (now rand : Nat),
        m ≤ 511 → m ≠ 0 → rand < (availList (m : Int)).length →
        ∃ idx next,
          drawOne (mkMaskState (m : Int) meta) now rand
              = some (.drawn (DEFAULT_THEMES.getD idx "") next)
          ∧ m.testBit idx = true
          ∧ next.mask = jsClearBit (m : Int) idx
          ∧ next.mask = ((m - 2 ^ idx : Nat) : Int)
          ∧ (m - 2 ^ idx) &&& m = m - 2 ^ idx
          ∧ setBitsCount (m - 2 ^ idx) < setBitsCount m)
    ∧ ∀ (meta : Option JVal) (now rand : Nat),
        drawOne (mkMaskState ((0 : Nat) : Int) meta) now rand
          = some .exhausted := by
  constructor
  · intro m meta now rand h511 hne hr
    have hmem : (availList (m : Int)).getD rand 0 ∈ availList (m : Int) :=
      getD_mem hr
    obtain ⟨hi9, hbit⟩ := mem_availList.mp hmem
    have hi9' : (availList (m : Int)).getD rand 0 < 9 := by
      have h9 : DEFAULT_THEMES.length = 9 := rfl
      omega
    rw [jsBit_eq_testBit m (by omega) _ hi9'] at hbit
    obtain ⟨hclear, hand, hcount, -⟩ := clearBit_facts m (by omega) _ hi9' hbit
    exact ⟨(availList (m : Int)).getD rand 0,
      ⟨jsClearBit (m : Int) ((availList (m : Int)).getD rand 0),
        stampMeta (mkMaskState (m : Int) meta) now⟩,
      drawOne_eq_drawn _ now rand _ (jsMaskOf_mkMaskState _ meta) hr,
      hbit, rfl, hclear, hand, hcount⟩
  · intro meta now rand
    exact availList_length_zero _ (by rw [availList_empty_of_zero]; rfl)
      now rand _ (jsMaskOf_mkMaskState _ meta)

/-- C7 witness: drawing from the one-bit state `1` and from the exhausted
state `0`. -/
theorem C7_monotonic_draw_witness :
    ((1 : Nat) ≤ 511 ∧ (1 : Nat) ≠ 0 ∧ 0 < (availList ((1 : Nat) : Int)).length)
    ∧ (∃ idx next,
        drawOne (mkMaskState ((1 : Nat) : Int) none) 9 0
            = some (.drawn (DEFAULT_THEMES.getD idx "") next)
        ∧ (1 : Nat).testBit idx = true
        ∧ next.mask = jsClearBit ((1 : Nat) : Int) idx
        ∧ next.mask = (((1 : Nat) - 2 ^ idx : Nat) : Int)
        ∧ ((1 : Nat) - 2 ^ idx) &&& 1 = (1 : Nat) - 2 ^ idx
        ∧ setBitsCount ((1 : Nat) - 2 ^ idx) < setBitsCount 1)
    ∧ drawOne (mkMaskState ((0 : Nat) : Int) none) 9 3 = some .exhausted :=
  ⟨⟨by omega, by omega, by decide⟩,
    C7_monotonic_draw.1 1 none 9 0 (by omega) (by omega) (by decide),
    C7_monotonic_draw.2 none 9 3⟩

/-- C8 (confirmed): the pick is `available[rand]`; with `rand` uniform on
`[0, available.length)` every set bit is selected by exactly one value of
`rand` (probability `1/|available|` each); and with a single remaining bit
the draw is deterministic: mask `1` always picks `"Basketball"` (Pool[0])
and leaves remaining `0`. -/
theorem C8_uniform_fair :
    (∀ (m : Nat) (meta : Option JVal) (now rand : Nat), m ≤ 511 →
        rand < (availList (m : Int)).length →
        drawLabel (drawOne (mkMaskState (m : Int) meta) now rand)
          = some (DEFAULT_THEMES.getD ((availList (m : Int)).getD rand 0) ""))
    ∧ (∀ m i : Nat, m ≤ 511 → i < 9 → m.testBit i = true →
        ((List.range (availList (m : Int)).length).filter
          (fun r => (availList (m : Int)).getD r 0 == i)).length = 1)
    ∧ ∀ (meta : Option JVal) (now rand : Nat),
        rand < (availList ((1 : Nat) : Int)).length →
        ∃ next,
          drawOne (mkMaskState ((1 : Nat) : Int) meta) now rand
              = some (.drawn "Basketball" next)
          ∧ next.mask = 0 := by
  refine ⟨?_, ?_, ?_⟩
  · intro m meta now rand _ hr
    rw [drawOne_eq_drawn _ now rand _ (jsMaskOf_mkMaskState _ meta) hr]
    rfl
  · intro m i h511 hi9 hbit
    exact availList_count_one m (by omega) i hi9 hbit
  · intro meta now rand hr
    have h1 : availList ((1 : Nat) : Int) = [0] := rfl
    rw [h1] at hr
    have hr0 : rand = 0 := by
      simp only [List.length_cons, List.length_nil] at hr
      omega
    subst hr0
    exact ⟨⟨jsClearBit ((1 : Nat) : Int) 0, stampMeta (mkMaskState _ meta) now⟩,
      drawOne_eq_drawn _ now 0 _ (jsMaskOf_mkMaskState _ meta) (by rw [h1]; omega),
      rfl⟩

/-- C8 witness: the three parts at mask `5` (bits 0 and 2) and mask `1`. -/
theorem C8_uniform_fair_witness :
    ((5 : Nat) ≤ 511 ∧ 1 < (availList ((5 : Nat) : Int)).length
      ∧ drawLabel (drawOne (mkMaskState ((5 : Nat) : Int) none) 4 1)
          = some (DEFAULT_THEMES.getD ((availList ((5 : Nat) : Int)).getD 1 0) ""))
    ∧ ((5 : Nat).testBit 2 = true
      ∧ ((List.range (availList ((5 : Nat) : Int)).length).filter
          (fun r => (availList ((5 : Nat) : Int)).getD r 0 == 2)).length = 1)
    ∧ (0 < (availList ((1 : Nat) : Int)).length
      ∧ ∃ next,
          drawOne (mkMaskState ((1 : Nat) : Int) none) 4 0
              = some (.drawn "Basketball" next)
          ∧ next.mask = 0) :=
  ⟨⟨by omega, by decide,
      C8_uniform_fair.1 5 none 4 1 (by omega) (by decide)⟩,
    ⟨by decide, C8_uniform_fair.2.1 5 2 (by omega) (by omega) (by decide)⟩,
    ⟨by decide, C8_uniform_fair.2.2 none 4 0 (by decide)⟩⟩

/-- C1 (amended): for every state with mask in `[0, 2^9 - 1]` the remaining
mask round-trips exactly through `decode ∘ encode`, with or without
`createdAt`; a nonzero `createdAt` round-trips to one-second precision
(`floor(createdAt/1000)*1000`); a zero or absent `createdAt` decodes to an
absent one (JS truthiness drops a zero timestamp at encode). -/
theorem C1_roundtrip (s : DrawState) (h : s.mask ≤ 511) :
    decodedMaskNum (decodeState (encodeState s)) = some (s.mask : Int)
    ∧ (∀ c : Nat, s.createdAt = some c → c ≠ 0 →
        decodedCreatedAtNum (decodeState (encodeState s))
          = some ((c / 1000 * 1000 : Nat) : Int))
    ∧ ((s.createdAt = none ∨ s.createdAt = some 0) →
        decodedCreatedAtNum (decodeState (encodeState s)) = none) := by
  obtain ⟨m, ca⟩ := s
  have h' : m ≤ 511 := h
  match ca with
  | none =>
    refine ⟨(roundtrip_nosuffix m (by omega)).1, ?_,
      fun _ => (roundtrip_nosuffix m (by omega)).2⟩
    intro c hc
    cases hc
  | some c =>
    by_cases hc : c = 0
    · subst hc
      rw [encodeState_some_zero]
      refine ⟨(roundtrip_nosuffix m (by omega)).1, ?_,
        fun _ => (roundtrip_nosuffix m (by omega)).2⟩
      intro c' hc' h0
      replace hc' : (some 0 : Option Nat) = some c' := hc'
      cases hc'
      exact absurd rfl h0
    · rw [decode_encode_suffix m c hc]
      refine ⟨decodedMaskNum_mk m _, ?_, ?_⟩
      · intro c' hc' _
        replace hc' : (some c : Option Nat) = some c' := hc'
        cases hc'
        exact decodedCreatedAtNum_mk_some m (c / 1000 * 1000)
      · rintro (h2 | h2)
        · replace h2 : (some c : Option Nat) = none := h2
          cases h2
        · replace h2 : (some c : Option Nat) = some 0 := h2
          cases h2
          exact absurd rfl hc

/-- C1 witness: mask 511 with a concrete millisecond timestamp. -/
theorem C1_roundtrip_witness :
    (511 : Nat) ≤ 511
    ∧ decodedMaskNum (decodeState (encodeState ⟨511, some 1700000000123⟩))
        = some 511
    ∧ decodedCreatedAtNum (decodeState (encodeState ⟨511, some 1700000000123⟩))
        = some 1700000000000 := by
  have h := C1_roundtrip ⟨511, some 1700000000123⟩ (by decide)
  refine ⟨by omega, h.1, ?_⟩
  have h2 := h.2.1 1700000000123 rfl (by omega)
  norm_num at h2 ⊢
  exact h2

/-- C1 counterexample: for the state with `createdAt = 0` the claim's
`decode(encode(s)).createdAt = floor(0/1000)*1000 = 0` fails — the encoder
treats the falsy timestamp as absent and the decoder returns no
`createdAt` at all (the remaining mask still round-trips). -/
theorem C1_createdAt_counterexample :
    encodeState ⟨0, some 0⟩ = "m0"
    ∧ decodedMaskNum (decodeState (encodeState ⟨0, some 0⟩)) = some 0
    ∧ decodedCreatedAtNum (decodeState (encodeState ⟨0, some 0⟩)) = none
    ∧ decodedCreatedAtNum (decodeState (encodeState ⟨0, some 0⟩))
        ≠ some ((0 / 1000 * 1000 : Nat) : Int) := by decide

/-- C4 (amended): the mask digits of a token processed by the compact
branch always parse — the grammar admits only valid base-36 digits, so the
`parseInt(m[1], 36) || 0` fallback never replaces a failed parse, and
`remaining` is the digits' exact value even when it exceeds `2^9 - 1`;
malformed digits fail the grammar instead, in which case decode returns
null; no parse error is ever propagated. -/
theorem C4_mask_parse :
    (∀ (s : String) (ds : List Char) (ts? : Option (List Char)),
        legacyParse s = none → compactMatch s = some (ds, ts?) →
        decodedMaskNum (decodeState s) = some ((val36 ds : Nat) : Int))
    ∧ ∀ s : String, legacyParse s = none → compactMatch s = none →
        decodeState s = none := by
  constructor
  · intro s ds ts? hleg hmatch
    obtain ⟨hne, hdig⟩ := compactMatch_digits hmatch
    rw [decodeState_eq_compact hleg, compactDecode_of_match _ _ _ hmatch,
      jsParseInt36_all_digits ds hne hdig]
    exact decodedMaskNum_mk _ _
  · intro s hleg hmatch
    rw [decodeState_eq_compact hleg]
    unfold compactDecode
    rw [hmatch]

/-- C4 witness: the overflowing token `"mzzz"`. -/
theorem C4_mask_parse_witness :
    (legacyParse "mzzz" = none
      ∧ compactMatch "mzzz" = some (['z', 'z', 'z'], none))
    ∧ decodedMaskNum (decodeState "mzzz")
        = some ((val36 ['z', 'z', 'z'] : Nat) : Int) :=
  ⟨⟨rfl, rfl⟩, C4_mask_parse.1 "mzzz" ['z', 'z', 'z'] none rfl rfl⟩

/-- C4 counterexample: `"mzzz"` matches the compact grammar with digits far
out of the nine-bit range, yet decode returns their value `46655`, not the
claimed degraded `remaining = 0`. -/
theorem C4_overflow_counterexample :
    (compactMatch "mzzz").isSome = true
    ∧ decodedMaskNum (decodeState "mzzz") = some 46655
    ∧ decodedMaskNum (decodeState "mzzz") ≠ some 0
    ∧ ¬ (46655 : Int) ≤ 2 ^ 9 - 1 := by decide

/-- C6 (confirmed): `decodeState` tries the legacy base64-JSON grammar
first; when that attempt fails it returns exactly the compact-grammar
result; a string matching neither yields `null` — in particular
`decode("not-a-valid-token!!") = null`. The embedded functions are total,
so no input raises. -/
theorem C6_decode_order :
    (∀ (s : String) (v : JVal), legacyParse s = some v → decodeState s = some v)
    ∧ (∀ s : String, legacyParse s = none → decodeState s = compactDecode s)
    ∧ decodeState "not-a-valid-token!!" = none :=
  ⟨fun _ _ h => decodeState_eq_legacy h,
    fun _ h => decodeState_eq_compact h, rfl⟩

/-- C6 witness: the legacy token `"Nw"` (base64 of `"7"`) wins over the
compact branch, and the legacy-rejected `"m3"` falls through to it. -/
theorem C6_decode_order_witness :
    (legacyParse "Nw" = some (.jnum 7) ∧ decodeState "Nw" = some (.jnum 7))
    ∧ (legacyParse "m3" = none ∧ decodeState "m3" = compactDecode "m3") :=
  ⟨⟨rfl, C6_decode_order.1 "Nw" (.jnum 7) rfl⟩,
    ⟨rfl, C6_decode_order.2.1 "m3" rfl⟩⟩

/-- C9 (amended): the encoder emits `"m"` plus the mask in base 36 with no
sign, followed by `".t"` and `floor(createdAt/1000)` in base 36 if and only
if `createdAt` is present *and nonzero* (a zero timestamp is falsy and
dropped); every output character is a URL-query-safe base-36 digit or `'.'`. -/
theorem C9_encode_form (s : DrawState) (h : s.mask ≤ 511) :
    ((s.createdAt = none ∨ s.createdAt = some 0) →
        encodeState s = "m" ++ toString36 s.mask)
    ∧ (∀ c : Nat, s.createdAt = some c → c ≠ 0 →
        encodeState s
          = "m" ++ toString36 s.mask ++ ".t" ++ toString36 (c / 1000))
    ∧ val36 (ts36 s.mask) = s.mask
    ∧ ∀ ch ∈ (encodeState s).data, urlSafeChar ch = true := by
  obtain ⟨m, ca⟩ := s
  refine ⟨?_, ?_, val36_ts36 m, ?_⟩
  · rintro (h2 | h2)
    · replace h2 : ca = none := h2
      cases h2
      rfl
    · replace h2 : ca = some 0 := h2
      cases h2
      rw [encodeState_some_zero]
      rfl
  · intro c hc hcne
    replace hc : ca = some c := hc
    cases hc
    exact encodeState_some_eq m c hcne
  · match ca with
    | none =>
      rw [encodeState_none_data]
      intro ch hch
      rcases List.mem_cons.mp hch with rfl | hch
      · rfl
      · exact ts36_urlSafe m ch hch
    | some c =>
      by_cases hc : c = 0
      · subst hc
        rw [encodeState_some_zero, encodeState_none_data]
        intro ch hch
        rcases List.mem_cons.mp hch with rfl | hch
        · rfl
        · exact ts36_urlSafe m ch hch
      · rw [encodeState_some_data m c hc]
        intro ch hch
        rcases List.mem_cons.mp hch with rfl | hch
        · rfl
        rcases List.mem_append.mp hch with hch | hch
        · exact ts36_urlSafe m ch hch
        rcases List.mem_cons.mp hch with rfl | hch
        · rfl
        rcases List.mem_cons.mp hch with rfl | hch
        · rfl
        · exact ts36_urlSafe _ ch hch

/-- C9 witness: a no-timestamp state and a timestamped one. -/
theorem C9_encode_form_witness :
    ((3 : Nat) ≤ 511 ∧ (511 : Nat) ≤ 511)
    ∧ encodeState ⟨3, none⟩ = "m" ++ toString36 3
    ∧ encodeState ⟨511, some 2000⟩
        = "m" ++ toString36 511 ++ ".t" ++ toString36 (2000 / 1000) :=
  ⟨⟨by omega, by omega⟩,
    (C9_encode_form ⟨3, none⟩ (by decide)).1 (Or.inl rfl),
    (C9_encode_form ⟨511, some 2000⟩ (by decide)).2.1 2000 rfl (by omega)⟩

/-- C9 counterexample: `createdAt = 0` is present but the token carries no
`".t"` suffix, refuting the claimed "if and only if createdAt is present". -/
theorem C9_iff_counterexample :
    (⟨5, some 0⟩ : DrawState).createdAt = some 0
    ∧ encodeState ⟨5, some 0⟩ = "m5"
    ∧ ¬ '.' ∈ (encodeState ⟨5, some 0⟩).data := by decide

/-- C10 (confirmed): every token the compact encoder produces from a
nine-bit state is rejected by the legacy base64-JSON attempt — either the
token contains the `'.'` separator, which `atob` rejects, or its first
decoded byte lies in `0x98..0x9B` (a UTF-8 continuation byte, since every
such token begins with `'m'`), so UTF-8 reconstruction fails — hence the
token is always interpreted by the compact branch, which succeeds. -/
theorem C10_grammar_disjoint (s : DrawState) (h : s.mask ≤ 511) :
    base64UrlDecode (encodeState s) = none
    ∧ legacyParse (encodeState s) = none
    ∧ decodeState (encodeState s) = compactDecode (encodeState s)
    ∧ (compactDecode (encodeState s)).isSome = true
    ∧ ('.' ∈ (encodeState s).data
        ∨ firstByteIsCont (b64BytesOf (encodeState s)) = true) := by
  obtain ⟨m, ca⟩ := s
  have h' : m ≤ 511 := h
  match ca with
  | none =>
    obtain ⟨hb, hf⟩ := b64_fails_nosuffix m (by omega)
    have hl := legacyParse_none_of_b64_none hb
    exact ⟨hb, hl, decodeState_eq_compact hl,
      compact_isSome_nosuffix m (by omega), Or.inr hf⟩
  | some c =>
    by_cases hc : c = 0
    · subst hc
      rw [encodeState_some_zero]
      obtain ⟨hb, hf⟩ := b64_fails_nosuffix m (by omega)
      have hl := legacyParse_none_of_b64_none hb
      exact ⟨hb, hl, decodeState_eq_compact hl,
        compact_isSome_nosuffix m (by omega), Or.inr hf⟩
    · have hdot := dot_mem_encode_suffix m c hc
      have hb := base64UrlDecode_of_dot hdot
      have hl := legacyParse_none_of_b64_none hb
      have hiso : (compactDecode (encodeState ⟨m, some c⟩)).isSome = true := by
        rw [compactDecode_of_match _ _ _ (compactMatch_encode_suffix m c hc)]
        rfl
      exact ⟨hb, hl, decodeState_eq_compact hl, hiso, Or.inl hdot⟩

/-- C10 witness: the full-mask token `"me7"` and a timestamped token. -/
theorem C10_grammar_disjoint_witness :
    ((511 : Nat) ≤ 511 ∧ (7 : Nat) ≤ 511)
    ∧ base64UrlDecode (encodeState ⟨511, none⟩) = none
    ∧ legacyParse (encodeState ⟨7, some 90061000⟩) = none :=
  ⟨⟨by omega, by omega⟩,
    (C10_grammar_disjoint ⟨511, none⟩ (by decide)).1,
    (C10_grammar_disjoint ⟨7, some 90061000⟩ (by decide)).2.1⟩

/-- The spec's backward-compatibility example: a legacy base64url JSON
payload whose `items` are `Pool[2]` (`"Swimming"`) and `Pool[5]`
(`"Badminton"`). -/
def legacyTwoItemToken : String :=
  "eyJpdGVtcyI6W3siaWQiOiJzLTIiLCJsYWJlbCI6IlN3aW1taW5nIn0seyJpZCI6InMtNSIsImxhYmVsIjoiQmFkbWludG9uIn1dLCJtZXRhIjp7ImNyZWF0ZWRBdCI6MTAwMH19"

/-- C2 (code bug): the legacy payload listing exactly
`\x7b Pool[2], Pool[5] \x7d` decodes, but the mask the engine reconstructs is
`0`, not the documented `(1 << 2) | (1 << 5) = 36` — the reduce in
`drawOne` iterates over the *items list positions* `0..items.length-1`
instead of the pool indices, so every bit at or above `items.length` is
lost and this two-item game is treated as exhausted. -/
theorem C2_legacy_reconstruction_eval :
    decodedItemsLabels (decodeState legacyTwoItemToken)
        = some ["Swimming", "Badminton"]
    ∧ ((decodeState legacyTwoItemToken).bind legacyMask) = some 0
    ∧ ((decodeState legacyTwoItemToken).bind legacyMask)
        ≠ some (((1 <<< 2) ||| (1 <<< 5) : Nat) : Int)
    ∧ drawIsExhausted ((decodeState legacyTwoItemToken).bind
        (fun d => drawOne d 5 0)) = true := by decide

end DrawLots
